import Mathlib

/-!
Verification development for the arch-lint static architecture linter.

The Rust sources are shallowly embedded: strings are modelled as lists of
characters (`Chars`), `Vec` as `List`, `Option`/`Result` as `Option`/`Except`,
and hash containers as association lists (the analysed properties do not
depend on iteration order except where noted).  Each definition mirrors a
specific function of the sources, cited in its doc comment.
-/

/-- Rust `&str` / `String` values, modelled at the character level. -/
abbrev Chars := List Char

/-- The apostrophe character, used when building diagnostic messages. -/
def apoChar : Char := Char.ofNat 39

/-- One-character string holding an apostrophe. -/
def apoS : Chars := [apoChar]

/-- Whitespace predicate used by `str::trim`; the embedded sources only ever
trim ASCII whitespace. -/
def isWSChar (c : Char) : Bool :=
  c == ' ' || c == '\t' || c == '\n' || c == '\r'

/-- Models `str::trim`: removes leading and trailing whitespace. -/
def trimChars (l : Chars) : Chars :=
  ((l.dropWhile isWSChar).reverse.dropWhile isWSChar).reverse

/-- Models `str::starts_with` on strings (list-prefix test). -/
def startsList : Chars → Chars → Bool
  | [], _ => true
  | _ :: _, [] => false
  | a :: asx, b :: bs => a == b && startsList asx bs

/-- Models `str::ends_with` on strings (list-suffix test). -/
def endsList (suf l : Chars) : Bool :=
  startsList suf.reverse l.reverse

/-- Models `str::strip_prefix`: `some rest` when `pre` heads `l`. -/
def dropPre (pre l : Chars) : Option Chars :=
  if startsList pre l then some (l.drop pre.length) else none

/-- Models `str::strip_suffix`: `some front` when `suf` ends `l`. -/
def dropSuf (l suf : Chars) : Option Chars :=
  if endsList suf l then some (l.take (l.length - suf.length)) else none

/-- Models `str::contains` for a literal needle (substring test; the empty
needle is contained in every string, as in Rust). -/
def containsSeq (needle hay : Chars) : Bool :=
  startsList needle hay ||
    match hay with
    | [] => false
    | _ :: t => containsSeq needle t

/-- Models `str::split(sep)` for a one-character separator: always returns at
least one (possibly empty) piece. -/
def splitOnChar (sep : Char) : Chars → List Chars
  | [] => [[]]
  | c :: rest =>
    if c = sep then [] :: splitOnChar sep rest
    else
      match splitOnChar sep rest with
      | s :: ss => (c :: s) :: ss
      | [] => [[c]]

/-- Models `str::split("::")`: leftmost, non-overlapping occurrences of the
two-character separator. -/
def splitSeg : Chars → List Chars
  | [] => [[]]
  | ':' :: ':' :: rest => [] :: splitSeg rest
  | c :: rest =>
    match splitSeg rest with
    | s :: ss => (c :: s) :: ss
    | [] => [[c]]

/-- Models `str::trim_end_matches('/')`: removes every trailing slash. -/
def trimEndSlashes (l : Chars) : Chars :=
  (l.reverse.dropWhile (fun c => c == '/')).reverse

/-- Models Rust `str::lines`: splits on `'\n'` as a terminator (no empty final
line for trailing newlines, empty input has no lines) and strips a trailing
`'\r'` from each line. -/
def rustLines (l : Chars) : List Chars :=
  if l.isEmpty then []
  else
    let parts := splitOnChar '\n' l
    let parts := if l.getLast? = some '\n' then parts.dropLast else parts
    parts.map (fun line => if line.getLast? = some '\r' then line.dropLast else line)

-- ────────────────────────────────────────────
-- utils/allowance.rs
-- ────────────────────────────────────────────

/-- Result of checking for an allow directive
(`arch_lint_core::utils::allowance::AllowCheck`). -/
inductive AllowCheck where
  | denied : AllowCheck
  | allowed (reason : Option Chars) : AllowCheck
deriving DecidableEq, Repr

/-- `AllowCheck::is_allowed`. -/
def AllowCheck.isAllowed : AllowCheck → Bool
  | .denied => false
  | .allowed _ => true

/-- `AllowCheck::reason`. -/
def AllowCheck.reasonOf : AllowCheck → Option Chars
  | .denied => none
  | .allowed r => r

/-- Parsed allowance directive (`AllowDirective`); the Rust `HashSet` of rule
names is modelled as a list (only membership is ever queried). -/
structure AllowDirective where
  rules : List Chars
  reason : Option Chars
deriving DecidableEq, Repr

/-- Models `allowance::parse_allow_directive` line by line: comment marker,
`arch-lint:` head, `allow(`…`)` rule list, optional `reason="…"` tail.  A
`reason=` introducer whose quoted text has no closing quote aborts the whole
parse (the `?` on `find('"')` in the source). -/
def parseAllowDirective (line : Chars) : Option AllowDirective :=
  let line := trimChars line
  let commentContent? : Option Chars :=
    match dropPre ("///").data line with
    | some rest => some (trimChars rest)
    | none =>
      match dropPre ("//").data line with
      | some rest => some (trimChars rest)
      | none => none
  match commentContent? with
  | none => none
  | some commentContent =>
    match dropPre ("arch-lint:").data commentContent with
    | none => none
    | some d =>
      let directive := trimChars d
      match dropPre ("allow(").data directive with
      | none => none
      | some a =>
        let allowContent := trimChars a
        match allowContent.findIdx? (· = ')') with
        | none => none
        | some parenEnd =>
          let rulesStr := allowContent.take parenEnd
          let rules := ((splitOnChar ',' rulesStr).map trimChars).filter (· ≠ [])
          if rules = [] then none
          else
            let rest := trimChars (allowContent.drop (parenEnd + 1))
            match dropPre ("reason=").data rest with
            | some reasonPart0 =>
              let reasonPart := trimChars reasonPart0
              if reasonPart.head? = some '"' ∧ reasonPart.length > 1 then
                match (reasonPart.drop 1).findIdx? (· = '"') with
                | some i => some ⟨rules, some ((reasonPart.drop 1).take i)⟩
                | none => none
              else some ⟨rules, none⟩
            | none => some ⟨rules, none⟩

/-- Does a parsed directive cover `ruleName` (directly or via `all`)? -/
def directiveCovers (d : AllowDirective) (ruleName : Chars) : Bool :=
  d.rules.contains ruleName || d.rules.contains ("all").data

/-- One iteration of the scan loop in `check_allow_with_reason`: line number
`k` (1-indexed) yields `some reason?` when it exists and carries a directive
covering the rule, `none` otherwise. -/
def checkLine (lines : List Chars) (ruleName : Chars) (k : Nat) : Option (Option Chars) :=
  if k = 0 ∨ k > lines.length then none
  else
    match parseAllowDirective (lines.getD (k - 1) []) with
    | some d => if directiveCovers d ruleName then some d.reason else none
    | none => none

/-- Models `allowance::check_allow_with_reason`: scans lines
`line.saturating_sub(1)` and `line` (skipping nonexistent line numbers) for an
allow directive covering `ruleName`. -/
def checkAllowWithReason (content : Chars) (line : Nat) (ruleName : Chars) : AllowCheck :=
  let lines := rustLines content
  match checkLine lines ruleName (line - 1) with
  | some r => .allowed r
  | none =>
    match checkLine lines ruleName line with
    | some r => .allowed r
    | none => .denied

-- ────────────────────────────────────────────
-- types.rs: Severity, Location, Violation
-- ────────────────────────────────────────────

/-- `Severity` (ordered `Info < Warning < Error` by declaration order). -/
inductive Severity where
  | info
  | warning
  | error
deriving DecidableEq, Repr

/-- Source code location (`types::Location`); the `PathBuf` file is a string. -/
structure Location where
  file : Chars
  line : Nat
  column : Nat
  offset : Nat
  length : Nat
deriving DecidableEq, Repr

/-- `Location::new` (offset and length zero). -/
def Location.new (file : Chars) (line column : Nat) : Location :=
  ⟨file, line, column, 0, 0⟩

/-- An automatic code replacement (`types::Replacement`). -/
structure Replacement where
  location : Location
  newText : Chars
deriving DecidableEq, Repr

/-- A suggested fix (`types::Suggestion`). -/
structure Suggestion where
  message : Chars
  replacement : Option Replacement
deriving DecidableEq, Repr

/-- `Suggestion::new` (no automatic fix). -/
def Suggestion.new (message : Chars) : Suggestion :=
  ⟨message, none⟩

/-- A labeled span (`types::Label`). -/
structure Label where
  location : Location
  message : Chars
deriving DecidableEq, Repr

/-- A lint violation (`types::Violation`). -/
structure Violation where
  code : Chars
  rule : Chars
  severity : Severity
  location : Location
  message : Chars
  suggestion : Option Suggestion
  labels : List Label
  docRef : Option Chars
deriving DecidableEq, Repr

/-- `Violation::new`. -/
def Violation.new (code rule : Chars) (severity : Severity) (location : Location)
    (message : Chars) : Violation :=
  ⟨code, rule, severity, location, message, none, [], none⟩

/-- `Violation::with_suggestion`. -/
def Violation.withSuggestion (v : Violation) (s : Suggestion) : Violation :=
  { v with suggestion := some s }

/-- `Violation::with_doc_ref`. -/
def Violation.withDocRef (v : Violation) (d : Chars) : Violation :=
  { v with docRef := some d }

-- quick sanity examples (removed-style: proved, not evaluated)
example :
    checkAllowWithReason ("fn foo() \x7b\n// arch-lint: allow(no-unwrap-expect)\nlet x = y;\n\x7d").data
      3 ("no-unwrap-expect").data = .allowed none := by decide

example :
    checkAllowWithReason ("// arch-lint: allow(no-sync-io) reason=\"startup only\"").data
      1 ("no-sync-io").data = .allowed (some ("startup only").data) := by decide

-- ────────────────────────────────────────────
-- Stable sorting (models `Vec::sort_by`, a stable comparison sort)
-- ────────────────────────────────────────────

/-- Insert `x` into `l` before the first element `y` with `le x y`; auxiliary
of `stableSort`. -/
def insertOrdered (le : α → α → Bool) (x : α) : List α → List α
  | [] => [x]
  | y :: ys => if le x y then x :: y :: ys else y :: insertOrdered le x ys

/-- Models Rust `sort_by` with comparator `c` via `le a b := c a b ≠ Greater`:
`sort_by` is a stable comparison sort, its algorithm unspecified; insertion
sort is stable, and all stable sorts for a total preorder agree. -/
def stableSort (le : α → α → Bool) : List α → List α
  | [] => []
  | x :: xs => insertOrdered le x (stableSort le xs)

-- ────────────────────────────────────────────
-- analyzer.rs: sorting comparator and severity override
-- ────────────────────────────────────────────

/-- Three-way comparison on `Nat`, modelling `usize::cmp`. -/
def natCmp (a b : Nat) : Ordering :=
  if a < b then .lt else if b < a then .gt else .eq

/-- Lexicographic list comparison from an element comparison, modelling how
Rust compares sequences. -/
def lexCmp (cmp : α → α → Ordering) : List α → List α → Ordering
  | [], [] => .eq
  | [], _ :: _ => .lt
  | _ :: _, [] => .gt
  | a :: asx, b :: bs => (cmp a b).then (lexCmp cmp asx bs)

/-- Character comparison by code point (UTF-8 byte order and code-point order
agree). -/
def charCmp (a b : Char) : Ordering :=
  natCmp a.toNat b.toNat

/-- Models `PathBuf::cmp`: component-wise comparison of the `'/'`-separated
path components, each component compared as a string. -/
def pathCmp (a b : Chars) : Ordering :=
  lexCmp (lexCmp charCmp) (splitOnChar '/' a) (splitOnChar '/' b)

/-- The comparator of `Analyzer::analyze`'s final sort (analyzer.rs:251-257):
by file, then line, then column. -/
def violationCmp (a b : Violation) : Ordering :=
  ((pathCmp a.location.file b.location.file).then
      (natCmp a.location.line b.location.line)).then
    (natCmp a.location.column b.location.column)

/-- `sort_by` keeps an element before another when the comparator does not say
`Greater`. -/
def violationLe (a b : Violation) : Bool :=
  violationCmp a b != .gt

/-- The final sorting step of `Analyzer::analyze`. -/
def sortViolations (l : List Violation) : List Violation :=
  stableSort violationLe l

/-- Models the result aggregation of `Analyzer::analyze`: the violations of
every rule invocation (per-file rules file by file, then project rules) are
appended in production order and the whole sequence is sorted at the end. -/
def analyzeViolations (ruleOutputs : List (List Violation)) : List Violation :=
  sortViolations ruleOutputs.flatten

/-- The ascending lexicographic order on `(file, line, column)` triples that
claim C1 asserts of adjacent findings. -/
def tripleLE (a b : Violation) : Prop :=
  pathCmp a.location.file b.location.file = .lt ∨
    (pathCmp a.location.file b.location.file = .eq ∧
      (a.location.line < b.location.line ∨
        (a.location.line = b.location.line ∧ a.location.column ≤ b.location.column)))

/-- Per-rule configuration (config.rs `RuleConfig`); free-form options are not
consulted by the embedded operations. -/
structure RuleConfig where
  enabled : Option Bool
  severity : Option Severity
deriving DecidableEq, Repr

/-- `Config` restricted to the per-rule table (a `HashMap` in the source,
modelled as an association list; only keyed lookup is performed). -/
structure Config where
  rules : List (Chars × RuleConfig)
deriving DecidableEq, Repr

/-- `Config::is_rule_enabled`: enabled unless explicitly disabled. -/
def Config.isRuleEnabled (cfg : Config) (ruleName : Chars) : Bool :=
  match cfg.rules.find? (fun p => p.1 == ruleName) with
  | none => true
  | some p => p.2.enabled.getD true

/-- `Config::rule_severity`. -/
def Config.ruleSeverity (cfg : Config) (ruleName : Chars) : Option Severity :=
  match cfg.rules.find? (fun p => p.1 == ruleName) with
  | none => none
  | some p => p.2.severity

/-- Models `Analyzer::apply_severity_override` (analyzer.rs:296-307): when the
configuration sets a severity for the rule, overwrite each violation's
severity, otherwise return the list unchanged. -/
def applySeverityOverride (cfg : Config) (ruleName : Chars)
    (violations : List Violation) : List Violation :=
  match cfg.ruleSeverity ruleName with
  | some s => violations.map (fun v => { v with severity := s })
  | none => violations

/-- Every `Violation` field except the severity, for the frame property C8. -/
def violationFrame (v : Violation) :
    Chars × Chars × Location × Chars × Option Suggestion × List Label × Option Chars :=
  (v.code, v.rule, v.location, v.message, v.suggestion, v.labels, v.docRef)

-- ────────────────────────────────────────────
-- no_unwrap_expect.rs (rule AL001)
-- ────────────────────────────────────────────

/-- Configuration of the `no-unwrap-expect` rule (`NoUnwrapExpect`). -/
structure NoUnwrapExpect where
  allowInTests : Bool
  allowExpect : Bool
  severity : Severity
deriving DecidableEq, Repr

/-- `NoUnwrapExpect::new` (defaults: tests allowed, expect forbidden,
severity Error). -/
def NoUnwrapExpect.new : NoUnwrapExpect :=
  ⟨true, false, .error⟩

/-- The `Rule::requires_allow_reason` default implementation (rule.rs:51-53):
a reason is required exactly when the default severity is Error; for this rule
`default_severity` returns the configured severity. -/
def NoUnwrapExpect.requiresAllowReason (r : NoUnwrapExpect) : Bool :=
  r.severity == .error

/-- The meta-finding pushed by `visit_expr_method_call` when an allow
directive lacks its required reason (no_unwrap_expect.rs:180-195). -/
def unwrapMetaViolation (relativePath : Chars) (line col : Nat) : Violation :=
  (Violation.new ("AL001").data ("no-unwrap-expect").data .warning
      (Location.new relativePath line (col + 1))
      (("Allow directive for ").data ++ apoS ++ ("no-unwrap-expect").data ++ apoS ++
        (" is missing required reason").data)).withSuggestion
    (Suggestion.new ("Add reason=\"...\" to explain why this exception is necessary").data)

/-- Models `UnwrapExpectVisitor::visit_expr_method_call`
(no_unwrap_expect.rs:155-230) for a single method-call site: `line`/`col` are
the 0-based span start of the method token (the source reports column
`start.column + 1`), `receiverIsPartialCmp` is `is_partial_cmp_chain` of the
receiver. -/
def visitExprMethodCallUnwrap (rule : NoUnwrapExpect) (relativePath content : Chars)
    (inTestContext inAllowedContext : Bool) (methodName : Chars) (line col : Nat)
    (receiverIsPartialCmp : Bool) : List Violation :=
  if rule.allowInTests && inTestContext then []
  else if inAllowedContext then []
  else
    let isUnwrap := methodName == ("unwrap").data
    let isExpect := methodName == ("expect").data
    if isUnwrap || (isExpect && !rule.allowExpect) then
      match checkAllowWithReason content line ("no-unwrap-expect").data with
      | .allowed reason =>
        if rule.requiresAllowReason && reason.isNone then
          [unwrapMetaViolation relativePath line col]
        else []
      | .denied =>
        let location := Location.new relativePath line (col + 1)
        let msgSug : Chars × Chars :=
          if isUnwrap then
            ((".unwrap() is forbidden in production code").data,
              ("Use `?` operator, `.ok_or(Error)?`, or pattern matching").data)
          else
            ((".expect() is forbidden in production code").data,
              ("Use `?` operator with `.context()` or custom error").data)
        let isPartialCmpUnwrap := isUnwrap && receiverIsPartialCmp
        let message :=
          if isPartialCmpUnwrap then
            msgSug.1 ++ (" (NaN comparison danger with partial_cmp)").data
          else msgSug.1
        [(Violation.new ("AL001").data ("no-unwrap-expect").data rule.severity
            location message).withSuggestion (Suggestion.new msgSug.2)]
    else []

-- ────────────────────────────────────────────
-- analyzer.rs: should_exclude (analyzer.rs:345-364)
-- ────────────────────────────────────────────

/-- Models `pattern.replace("**", "")`: removes leftmost, non-overlapping
occurrences of `**`. -/
def stripStars : Chars → Chars
  | '*' :: '*' :: rest => stripStars rest
  | c :: rest => c :: stripStars rest
  | [] => []

/-- Models `Analyzer::should_exclude` (analyzer.rs:345-364).  The external
glob crate enters through `globNew`: `globNew p = some m` models a pattern
that compiles, with `m` its `matches` function; `none` models a pattern
`glob::Pattern::new` rejects. -/
def shouldExclude (globNew : Chars → Option (Chars → Bool)) (patterns : List Chars)
    (pathStr : Chars) : Bool :=
  patterns.any fun pat =>
    (match globNew pat with
     | some m => m pathStr
     | none => false) ||
    (let normalized := stripStars pat
     !normalized.isEmpty && containsSeq normalized pathStr)

/-- Claim C4's exclusion condition, written from the spec's words: a glob
match, OR the `**`-stripped pattern occurring as a substring — with no
non-emptiness guard on the stripped pattern. -/
def specDualExclude (globNew : Chars → Option (Chars → Bool)) (patterns : List Chars)
    (pathStr : Chars) : Prop :=
  ∃ p ∈ patterns,
    (∃ m, globNew p = some m ∧ m pathStr = true) ∨ containsSeq (stripStars p) pathStr = true

/-- Partial model of the external glob crate's compiler, covering only the
empty pattern: `glob::Pattern::new("")` succeeds and the resulting pattern
matches exactly the empty path.  All other patterns are unused by the
statements below and are mapped to `none`. -/
def emptyOnlyGlobNew : Chars → Option (Chars → Bool) :=
  fun pat => if pat = [] then some (fun path => path.isEmpty) else none

-- ────────────────────────────────────────────
-- utils/paths.rs: path_matches (paths.rs:37-78)
-- ────────────────────────────────────────────

/-- The `**` pattern segment. -/
def dstarSeg : Chars := ['*', '*']

/-- The `*` pattern segment. -/
def starSeg : Chars := ['*']

/-- Models `paths::match_parts` (paths.rs:44-78).  The source's `**` branch
tries every suffix `path[i..]` for `i` in `0..=path.len()`; here that loop is
unfolded into "match zero segments here, or drop one segment and retry". -/
def matchParts : List Chars → List Chars → Bool
  | path, [] => path.isEmpty
  | path, p :: rest =>
    if p = dstarSeg then
      matchParts path rest ||
        (match path with
         | [] => false
         | _ :: t => matchParts t (p :: rest))
    else if p = starSeg then
      match path with
      | [] => false
      | _ :: t => matchParts t rest
    else
      match path with
      | [] => false
      | s :: t => s == p && matchParts t rest
termination_by path pattern => (pattern.length, path.length)

/-- Models `paths::path_matches` (paths.rs:37-42): split both strings on `::`
and match the segment lists. -/
def pathMatches (path pat : Chars) : Bool :=
  matchParts (splitSeg path) (splitSeg pat)

/-- Claim C5's alignment semantics, written from the spec's words: a literal
pattern segment matches only an identical path segment, `*` consumes exactly
one path segment, `**` consumes zero or more path segments. -/
inductive SegMatch : List Chars → List Chars → Prop
  | nil : SegMatch [] []
  | lit (s : Chars) {path pat : List Chars} (h1 : s ≠ starSeg) (h2 : s ≠ dstarSeg) :
      SegMatch path pat → SegMatch (s :: path) (s :: pat)
  | one (s : Chars) {path pat : List Chars} :
      SegMatch path pat → SegMatch (s :: path) (starSeg :: pat)
  | anyZero {path pat : List Chars} :
      SegMatch path pat → SegMatch path (dstarSeg :: pat)
  | anyMore (s : Chars) {path pat : List Chars} :
      SegMatch path (dstarSeg :: pat) → SegMatch (s :: path) (dstarSeg :: pat)

-- ────────────────────────────────────────────
-- arch-lint-ts: layer.rs (LayerResolver)
-- ────────────────────────────────────────────

/-- A named architecture layer (`config::LayerDef`). -/
structure LayerDef where
  name : Chars
  packages : List Chars
deriving DecidableEq, Repr

/-- The flattening step of `LayerResolver::new` (layer.rs:18-23):
`(package_prefix, layer_name)` pairs in declaration order. -/
def layerEntries (layers : List LayerDef) : List (Chars × Chars) :=
  layers.flatMap fun l => l.packages.map fun p => (p, l.name)

/-- The comparator of `LayerResolver::new`'s sort (layer.rs:25):
`b.0.len().cmp(&a.0.len())`, i.e. an entry stays before another when its
package prefix is at least as long. -/
def prefLenDescLe (a b : Chars × Chars) : Bool :=
  decide (b.1.length ≤ a.1.length)

/-- `LayerResolver::new`: flatten, then stable-sort by prefix length
descending. -/
def layerResolverMap (layers : List LayerDef) : List (Chars × Chars) :=
  stableSort prefLenDescLe (layerEntries layers)

/-- The match test of `LayerResolver::resolve` (layer.rs:33): exact equality
or extension at a `.` boundary. -/
def qualMatches (pre q : Chars) : Bool :=
  q == pre || startsList (pre ++ ['.']) q

/-- The scan loop of `LayerResolver::resolve` (layer.rs:32-37): first entry
whose prefix matches wins. -/
def findLayer : List (Chars × Chars) → Chars → Option Chars
  | [], _ => none
  | (p, layerName) :: rest, q =>
    if qualMatches p q then some layerName else findLayer rest q

/-- `LayerResolver::resolve` for a resolver built from `layers`. -/
def resolveLayer (layers : List LayerDef) (q : Chars) : Option Chars :=
  findLayer (layerResolverMap layers) q

-- ────────────────────────────────────────────
-- declarative/model.rs: GlobPattern, Scope, ScopeDep, DeclarativeConfig
-- ────────────────────────────────────────────

/-- A validated glob pattern (`model::GlobPattern`): the raw source string and
the compiled matcher.  The compiled glob comes from the external glob crate
and is kept abstract as a function field. -/
structure GlobPattern where
  raw : Chars
  compiled : Chars → Bool

/-- The `dir/**` boundary fallback inside `GlobPattern::matches`
(model.rs:92-102): strip a `/**` suffix from the raw pattern, drop trailing
slashes, and accept any path that continues the remaining prefix at a `/`
boundary.  The source inspects the byte at index `normalized.len()`; for valid
UTF-8 that byte equals `b'/'` exactly when the character at the same character
index is `'/'`, which is what the model tests. -/
def boundaryFallback (raw path : Chars) : Bool :=
  match dropSuf raw ("/**").data with
  | some pre =>
    let normalized := trimEndSlashes pre
    startsList normalized path && (path[normalized.length]? == some '/')
  | none => false

/-- `GlobPattern::matches` (model.rs:83-104): the compiled glob first, then
the boundary fallback. -/
def GlobPattern.matches (g : GlobPattern) (path : Chars) : Bool :=
  if g.compiled path then true else boundaryFallback g.raw path

/-- A named file scope (`model::Scope`). -/
structure Scope where
  name : Chars
  patterns : List GlobPattern

/-- `Scope::contains` (model.rs:180-183). -/
def Scope.containsPath (s : Scope) (path : Chars) : Bool :=
  s.patterns.any fun p => p.matches path

/-- A scope dependency constraint (`model::ScopeDep`). -/
structure ScopeDep where
  fromScope : Chars
  toScopes : List Chars
  message : Chars
  docRef : Option Chars
  severity : Severity

/-- `ScopeDep::is_denied` (model.rs:422-426). -/
def ScopeDep.isDenied (d : ScopeDep) (target : Chars) : Bool :=
  d.toScopes.contains target

/-- The parts of `model::DeclarativeConfig` consulted by the deny-scope-dep
rule: the scope registry (a `HashMap` whose values are iterated; modelled as a
list) and the scope-dep rules. -/
structure DeclarativeConfig where
  scopes : List Scope
  scopeDeps : List ScopeDep

/-- `DeclarativeConfig::scopes_for_path` (model.rs:563-570). -/
def scopesForPath (cfg : DeclarativeConfig) (path : Chars) : List Chars :=
  (cfg.scopes.filter fun s => s.containsPath path).map fun s => s.name

-- ────────────────────────────────────────────
-- declarative/rules.rs: deny-scope-dep (ALD003)
-- ────────────────────────────────────────────

/-- The candidate file path `src/<segments joined by "/">.rs` built by
`resolve_target_scopes` (rules.rs:390) from the tail after `crate::`. -/
def candidateFilePath (tail : Chars) : Chars :=
  ("src/").data ++ List.intercalate ['/'] (splitSeg tail) ++ (".rs").data

/-- Models `resolve_target_scopes` (rules.rs:374-392): only `crate::` paths
resolve; the tail becomes a candidate file path whose scopes are returned. -/
def resolveTargetScopes (cfg : DeclarativeConfig) (usePath : Chars) : List Chars :=
  match dropPre ("crate::").data usePath with
  | none => []
  | some rest =>
    let segments := splitSeg rest
    if segments = [] then []
    else scopesForPath cfg (("src/").data ++ List.intercalate ['/'] segments ++ (".rs").data)

/-- The violation built by `ScopeDepVisitor::visit_item_use`
(rules.rs:404-427) for one denied target scope. -/
def mkScopeDepViolation (dep : ScopeDep) (relativePath usePath target : Chars)
    (line col : Nat) : Violation :=
  let base := Violation.new ("ALD003").data ("deny-scope-dep").data dep.severity
    (Location.new relativePath line (col + 1))
    (dep.message ++ (": `").data ++ usePath ++ ("` (scope `").data ++ dep.fromScope ++
      ("` → scope `").data ++ target ++ ("`)").data)
  match dep.docRef with
  | some d => base.withDocRef d
  | none => base

/-- The inner loop of `ScopeDepVisitor::visit_item_use` (rules.rs:401-431) for
one deny rule: one violation per resolved target scope on the deny-list. -/
def scopeDepFindingsFor (cfg : DeclarativeConfig) (dep : ScopeDep)
    (relativePath usePath : Chars) (line col : Nat) : List Violation :=
  (resolveTargetScopes cfg usePath).filterMap fun target =>
    if dep.isDenied target then
      some (mkScopeDepViolation dep relativePath usePath target line col)
    else none

/-- Models `ScopeDepRule::check` plus `visit_item_use` for a single expanded
use path: the applicable deny rules are those whose `from` scope contains the
file (rules.rs:334-349), and each contributes its findings in order. -/
def scopeDepViolationsForUse (cfg : DeclarativeConfig) (relativePath usePath : Chars)
    (line col : Nat) : List Violation :=
  let fileScopes := scopesForPath cfg relativePath
  let applicable := cfg.scopeDeps.filter fun dep => fileScopes.contains dep.fromScope
  applicable.flatMap fun dep => scopeDepFindingsFor cfg dep relativePath usePath line col

-- ────────────────────────────────────────────
-- arch-lint-ts: config.rs (ArchConfig::validate)
-- ────────────────────────────────────────────

/-- A custom constraint rule (`config::Constraint`). -/
structure Constraint where
  kind : Chars
  pattern : Chars
  inLayers : List Chars
  severity : Severity
  message : Chars
  importMatches : Chars
  sourceMustMatch : Chars
  sourceMustNotMatch : Chars
deriving DecidableEq, Repr

/-- Layer-engine configuration (`config::ArchConfig`); the `dependencies`
`HashMap` is modelled as an association list. -/
structure ArchConfig where
  root : Chars
  exclude : List Chars
  layers : List LayerDef
  dependencies : List (Chars × List Chars)
  constraints : List Constraint
deriving DecidableEq, Repr

/-- Decimal rendering of a `Nat`, for the `constraints[5]`-style messages. -/
def natToChars (n : Nat) : Chars :=
  (toString n).data

/-- The per-entry checks of the dependencies loop in `ArchConfig::validate`
(config.rs:174-192), in source order: unknown layer, first unknown dep,
self-dependency. -/
def depsEntryError (layerNames : List Chars) (layer : Chars) (deps : List Chars) :
    Option Chars :=
  if !(layerNames.contains layer) then
    some (("dependencies.").data ++ layer ++ (": unknown layer").data)
  else
    match deps.find? (fun d => !(layerNames.contains d)) with
    | some d =>
      some (("dependencies.").data ++ layer ++ (": unknown dep ").data ++ apoS ++ d ++ apoS)
    | none =>
      if deps.contains layer then
        some (("dependencies.").data ++ layer ++ (": self-dependency").data)
      else none

/-- The dependencies loop of `ArchConfig::validate`: first failing entry
wins. -/
def checkDeps (layerNames : List Chars) : List (Chars × List Chars) → Option Chars
  | [] => none
  | (layer, deps) :: rest =>
    match depsEntryError layerNames layer deps with
    | some e => some e
    | none => checkDeps layerNames rest

/-- The constraints loop of `ArchConfig::validate` (config.rs:194-202),
carrying the enumeration index. -/
def checkConstraints (layerNames : List Chars) (i : Nat) : List Constraint → Option Chars
  | [] => none
  | c :: rest =>
    match c.inLayers.find? (fun l => !(layerNames.contains l)) with
    | some l =>
      some (("constraints[").data ++ natToChars i ++ ("]: unknown layer ").data ++
        apoS ++ l ++ apoS)
    | none => checkConstraints layerNames (i + 1) rest

/-- The missing-dependencies-entry loop of `ArchConfig::validate`
(config.rs:204-211). -/
def checkLayerEntries (layers : List LayerDef) (dependencies : List (Chars × List Chars)) :
    Option Chars :=
  match layers.find? (fun l => !(dependencies.any fun p => p.1 == l.name)) with
  | some l =>
    some (("layer ").data ++ apoS ++ l.name ++ apoS ++ (" has no entry in [dependencies]").data)
  | none => none

/-- Models `ArchConfig::validate` (config.rs:170-214): returns `ok` when all
checks pass and otherwise the error for the first problem found. -/
def ArchConfig.validate (cfg : ArchConfig) : Except Chars Unit :=
  let layerNames := cfg.layers.map fun l => l.name
  match checkDeps layerNames cfg.dependencies with
  | some e => .error e
  | none =>
    match checkConstraints layerNames 0 cfg.constraints with
    | some e => .error e
    | none =>
      match checkLayerEntries cfg.layers cfg.dependencies with
      | some e => .error e
      | none => .ok ()

/-- The acceptance condition claim C7 states for `ArchConfig::validate`: every
referenced layer defined, every defined layer has a dependencies entry, no
self-dependency. -/
def archValid (cfg : ArchConfig) : Prop :=
  (∀ p ∈ cfg.dependencies,
    p.1 ∈ cfg.layers.map (fun l => l.name) ∧
    (∀ d ∈ p.2, d ∈ cfg.layers.map (fun l => l.name)) ∧
    p.1 ∉ p.2) ∧
  (∀ c ∈ cfg.constraints, ∀ l ∈ c.inLayers, l ∈ cfg.layers.map (fun l => l.name)) ∧
  (∀ l ∈ cfg.layers, ∃ p ∈ cfg.dependencies, p.1 = l.name)

-- ────────────────────────────────────────────
-- Concrete fixtures for counterexamples and witnesses
-- ────────────────────────────────────────────

/-- Three layers whose package prefixes form a chain `com` ⊂ `com.a` ⊂
`com.a.b`, used against claim C3. -/
def layersC3 : List LayerDef :=
  [⟨("la").data, [("com").data]⟩,
   ⟨("lb").data, [("com.a").data]⟩,
   ⟨("lc").data, [("com.a.b").data]⟩]

/-- Stand-in compiled matcher that never matches; the paths exercised below
are decided by the `dir/**` boundary fallback alone. -/
def falseGlob : Chars → Bool := fun _ => false

/-- The `domain` scope over `src/domain/**`. -/
def scopeDomain : Scope :=
  ⟨("domain").data, [⟨("src/domain/**").data, falseGlob⟩]⟩

/-- The `infra` scope over `src/infra/**`. -/
def scopeInfra : Scope :=
  ⟨("infra").data, [⟨("src/infra/**").data, falseGlob⟩]⟩

/-- A deny-scope-dep rule: `domain` must not depend on `infra`. -/
def depDomainInfra : ScopeDep :=
  ⟨("domain").data, [("infra").data], ("Domain must not depend on infra.").data, none, .error⟩

/-- Declarative config with the `domain` and `infra` scopes and the one deny
rule, mirroring the end-to-end scenarios of the spec. -/
def declCfgC6 : DeclarativeConfig :=
  ⟨[scopeDomain, scopeInfra], [depDomainInfra]⟩

/-- An `ArchConfig` with two independent validation problems: an unknown dep
`nonexistent` in the dependencies map and an unknown layer `ghost` in a
constraint. -/
def archCfgBad : ArchConfig :=
  ⟨(".").data, [],
   [⟨("domain").data, [("com.example.domain").data]⟩],
   [(("domain").data, [("nonexistent").data])],
   [⟨("no-import-pattern").data, [], [("ghost").data], .error, [], [], [], []⟩]⟩

/-- Source content whose only line is an allow directive, used against claim
C10's past-end-of-file behaviour. -/
def contentPastEnd : Chars :=
  ("// arch-lint: allow(no-unwrap-expect)").data

/-- Source content with an unwrap under a reason-less allow comment on line 3,
witnessing claim C2. -/
def contentAllowNoReason : Chars :=
  ("fn foo() \x7b\n    // arch-lint: allow(no-unwrap-expect)\n    let x = y.unwrap();\n\x7d").data

/-- Laws making a three-way comparator a linear preorder: swap-symmetry,
transitivity of `lt`, and left-congruence of `eq`. -/
structure LawCmp (cmp : α → α → Ordering) : Prop where
  swap : ∀ a b, (cmp a b).swap = cmp b a
  lt_trans : ∀ {a b c}, cmp a b = .lt → cmp b c = .lt → cmp a c = .lt
  eq_congr : ∀ {a b} (c), cmp a b = .eq → cmp a c = cmp b c

-- ────────────────────────────────────────────
-- Theorems: stable sort
-- ────────────────────────────────────────────

theorem perm_insertOrdered (le : α → α → Bool) (x : α) (l : List α) :
    List.Perm (insertOrdered le x l) (x :: l) := by
  induction l with
  | nil => simp [insertOrdered]
  | cons y ys ih =>
    simp only [insertOrdered]
    split
    · exact List.Perm.refl _
    · exact (ih.cons y).trans (List.Perm.swap x y ys)

theorem perm_stableSort (le : α → α → Bool) (l : List α) :
    List.Perm (stableSort le l) l := by
  induction l with
  | nil => simp [stableSort]
  | cons x xs ih =>
    exact (perm_insertOrdered le x (stableSort le xs)).trans (ih.cons x)

theorem mem_stableSort (le : α → α → Bool) (l : List α) (a : α) :
    a ∈ stableSort le l ↔ a ∈ l :=
  (perm_stableSort le l).mem_iff

theorem pairwise_insertOrdered (le : α → α → Bool)
    (htrans : ∀ a b c, le a b = true → le b c = true → le a c = true)
    (htotal : ∀ a b, le a b = true ∨ le b a = true)
    (x : α) (l : List α) (h : l.Pairwise (fun a b => le a b = true)) :
    (insertOrdered le x l).Pairwise (fun a b => le a b = true) := by
  induction l with
  | nil => simp [insertOrdered]
  | cons y ys ih =>
    simp only [insertOrdered]
    split
    · constructor
      · intro z hz
        rcases List.mem_cons.mp hz with h1 | h1
        · subst h1; assumption
        · exact htrans x y z (by assumption) (List.rel_of_pairwise_cons h h1)
      · exact h
    · have hyx : le y x = true := by
        rcases htotal x y with h1 | h1
        · simp_all
        · exact h1
      constructor
      · intro z hz
        rcases List.mem_cons.mp ((perm_insertOrdered le x ys).mem_iff.mp hz) with h1 | h1
        · subst h1; exact hyx
        · exact List.rel_of_pairwise_cons h h1
      · exact ih h.tail

theorem pairwise_stableSort (le : α → α → Bool)
    (htrans : ∀ a b c, le a b = true → le b c = true → le a c = true)
    (htotal : ∀ a b, le a b = true ∨ le b a = true)
    (l : List α) : (stableSort le l).Pairwise (fun a b => le a b = true) := by
  induction l with
  | nil => simp [stableSort]
  | cons x xs ih => exact pairwise_insertOrdered le htrans htotal x _ ih

-- ────────────────────────────────────────────
-- Theorems: string-utility lemmas
-- ────────────────────────────────────────────

theorem startsList_self_append (p t : Chars) : startsList p (p ++ t) = true := by
  induction p with
  | nil => rfl
  | cons c cs ih => simp [startsList, ih]

theorem endsList_append (a b : Chars) : endsList b (a ++ b) = true := by
  unfold endsList
  rw [List.reverse_append]
  exact startsList_self_append b.reverse a.reverse

theorem dropSuf_append (a b : Chars) : dropSuf (a ++ b) b = some a := by
  unfold dropSuf
  rw [endsList_append]
  simp

-- ────────────────────────────────────────────
-- Theorems: Ordering and comparator laws
-- ────────────────────────────────────────────

theorem ordering_then_swap (o p : Ordering) : (o.then p).swap = o.swap.then p.swap := by
  cases o <;> rfl

theorem ordering_then_eq_lt {o p : Ordering} :
    o.then p = .lt ↔ o = .lt ∨ (o = .eq ∧ p = .lt) := by
  cases o <;> simp [Ordering.then]

theorem ordering_then_eq_eq {o p : Ordering} :
    o.then p = .eq ↔ o = .eq ∧ p = .eq := by
  cases o <;> simp [Ordering.then]

theorem ordering_then_eq_gt {o p : Ordering} :
    o.then p = .gt ↔ o = .gt ∨ (o = .eq ∧ p = .gt) := by
  cases o <;> simp [Ordering.then]

theorem natCmp_lt {a b : Nat} : natCmp a b = .lt ↔ a < b := by
  unfold natCmp
  split_ifs with h1 h2 <;> simp_all

theorem natCmp_eq {a b : Nat} : natCmp a b = .eq ↔ a = b := by
  unfold natCmp
  split_ifs with h1 h2 <;> simp_all <;> omega

theorem natCmp_gt {a b : Nat} : natCmp a b = .gt ↔ b < a := by
  unfold natCmp
  split_ifs with h1 h2 <;> (simp_all; try omega)

theorem LawCmp.refl_eq {cmp : α → α → Ordering} (h : LawCmp cmp) (a : α) :
    cmp a a = .eq := by
  have hs := h.swap a a
  cases hc : cmp a a <;> rw [hc] at hs <;> simp_all [Ordering.swap]

theorem LawCmp.eq_congr_right {cmp : α → α → Ordering} (h : LawCmp cmp) (a : α) {b c : α}
    (hbc : cmp b c = .eq) : cmp a b = cmp a c := by
  have h1 : cmp b a = cmp c a := h.eq_congr a hbc
  calc cmp a b = (cmp b a).swap := by rw [← h.swap a b, Ordering.swap_swap]
    _ = (cmp c a).swap := by rw [h1]
    _ = cmp a c := by rw [← h.swap a c, Ordering.swap_swap]

theorem LawCmp.pullback {cmp : β → β → Ordering} (h : LawCmp cmp) (f : α → β) :
    LawCmp (fun a b => cmp (f a) (f b)) where
  swap a b := h.swap (f a) (f b)
  lt_trans hab hbc := h.lt_trans hab hbc
  eq_congr c hab := h.eq_congr (f c) hab

theorem LawCmp.then_comp {cmp₁ cmp₂ : α → α → Ordering}
    (h₁ : LawCmp cmp₁) (h₂ : LawCmp cmp₂) :
    LawCmp (fun a b => (cmp₁ a b).then (cmp₂ a b)) where
  swap a b := by rw [ordering_then_swap, h₁.swap, h₂.swap]
  lt_trans {a b c} hab hbc := by
    rcases ordering_then_eq_lt.mp hab with h1 | ⟨h1, h1'⟩ <;>
      rcases ordering_then_eq_lt.mp hbc with h2 | ⟨h2, h2'⟩
    · exact ordering_then_eq_lt.mpr (Or.inl (h₁.lt_trans h1 h2))
    · exact ordering_then_eq_lt.mpr
        (Or.inl (by rw [h₁.eq_congr_right a h2] at h1; exact h1))
    · exact ordering_then_eq_lt.mpr (Or.inl (by rw [h₁.eq_congr c h1]; exact h2))
    · exact ordering_then_eq_lt.mpr
        (Or.inr ⟨by rw [h₁.eq_congr c h1]; exact h2, h₂.lt_trans h1' h2'⟩)
  eq_congr c hab := by
    rcases ordering_then_eq_eq.mp hab with ⟨h1, h2⟩
    show (cmp₁ _ c).then (cmp₂ _ c) = (cmp₁ _ c).then (cmp₂ _ c)
    rw [h₁.eq_congr c h1, h₂.eq_congr c h2]

theorem lawCmp_natCmp : LawCmp natCmp where
  swap a b := by
    rcases Nat.lt_trichotomy a b with h | h | h
    · rw [natCmp_lt.mpr h, natCmp_gt.mpr h]; rfl
    · subst h; rw [natCmp_eq.mpr rfl]; rfl
    · rw [natCmp_gt.mpr h, natCmp_lt.mpr h]; rfl
  lt_trans {a b c} hab hbc :=
    natCmp_lt.mpr (Nat.lt_trans (natCmp_lt.mp hab) (natCmp_lt.mp hbc))
  eq_congr c hab := by rw [natCmp_eq.mp hab]

theorem lawCmp_charCmp : LawCmp charCmp :=
  lawCmp_natCmp.pullback Char.toNat

theorem lawCmp_lexCmp {cmp : α → α → Ordering} (h : LawCmp cmp) :
    LawCmp (lexCmp cmp) where
  swap a b := by
    induction a generalizing b with
    | nil => cases b <;> rfl
    | cons x xs ih =>
      cases b with
      | nil => rfl
      | cons y ys =>
        show ((cmp x y).then (lexCmp cmp xs ys)).swap = _
        rw [ordering_then_swap, h.swap, ih]
        rfl
  lt_trans {a b c} hab hbc := by
    induction a generalizing b c with
    | nil =>
      cases b with
      | nil => exact absurd hab (by simp [lexCmp])
      | cons y ys =>
        cases c with
        | nil => exact absurd hbc (by simp [lexCmp])
        | cons z zs => rfl
    | cons x xs ih =>
      cases b with
      | nil => exact absurd hab (by simp [lexCmp])
      | cons y ys =>
        cases c with
        | nil => exact absurd hbc (by simp [lexCmp])
        | cons z zs =>
          have hab' : (cmp x y).then (lexCmp cmp xs ys) = .lt := hab
          have hbc' : (cmp y z).then (lexCmp cmp ys zs) = .lt := hbc
          show (cmp x z).then (lexCmp cmp xs zs) = .lt
          rcases ordering_then_eq_lt.mp hab' with h1 | ⟨h1, h1'⟩ <;>
            rcases ordering_then_eq_lt.mp hbc' with h2 | ⟨h2, h2'⟩
          · exact ordering_then_eq_lt.mpr (Or.inl (h.lt_trans h1 h2))
          · exact ordering_then_eq_lt.mpr
              (Or.inl (by rw [h.eq_congr_right x h2] at h1; exact h1))
          · exact ordering_then_eq_lt.mpr (Or.inl (by rw [h.eq_congr z h1]; exact h2))
          · exact ordering_then_eq_lt.mpr
              (Or.inr ⟨by rw [h.eq_congr z h1]; exact h2, ih h1' h2'⟩)
  eq_congr c hab := by
    rename_i a b
    induction a generalizing b c with
    | nil =>
      cases b with
      | nil => rfl
      | cons y ys => exact absurd hab (by simp [lexCmp])
    | cons x xs ih =>
      cases b with
      | nil => exact absurd hab (by simp [lexCmp])
      | cons y ys =>
        have hab' : (cmp x y).then (lexCmp cmp xs ys) = .eq := hab
        rcases ordering_then_eq_eq.mp hab' with ⟨h1, h2⟩
        cases c with
        | nil => rfl
        | cons z zs =>
          show (cmp x z).then (lexCmp cmp xs zs) = (cmp y z).then (lexCmp cmp ys zs)
          rw [h.eq_congr z h1, ih zs h2]

theorem lawCmp_pathCmp : LawCmp pathCmp :=
  (lawCmp_lexCmp (lawCmp_lexCmp lawCmp_charCmp)).pullback (splitOnChar (Char.ofNat 47))

theorem lawCmp_violationCmp : LawCmp violationCmp :=
  (((lawCmp_pathCmp.pullback fun v : Violation => v.location.file).then_comp
      (lawCmp_natCmp.pullback fun v : Violation => v.location.line)).then_comp
    (lawCmp_natCmp.pullback fun v : Violation => v.location.column))

theorem violationLe_iff_not_gt {a b : Violation} :
    violationLe a b = true ↔ violationCmp a b ≠ .gt := by
  unfold violationLe
  cases h : violationCmp a b <;> simp [h] <;> decide

theorem violationLe_trans (a b c : Violation) :
    violationLe a b = true → violationLe b c = true → violationLe a c = true := by
  simp only [violationLe_iff_not_gt]
  intro hab hbc
  rcases h1 : violationCmp a b with h | h | h
  · rcases h2 : violationCmp b c with g | g | g
    · exact fun hc => by
        rw [lawCmp_violationCmp.lt_trans h1 h2] at hc
        cases hc
    · exact fun hc => by
        rw [lawCmp_violationCmp.eq_congr_right a h2] at h1
        rw [h1] at hc
        cases hc
    · exact absurd h2 hbc
  · intro hc
    rw [lawCmp_violationCmp.eq_congr c h1] at hc
    exact hbc hc
  · exact absurd h1 hab

theorem violationLe_total (a b : Violation) :
    violationLe a b = true ∨ violationLe b a = true := by
  simp only [violationLe_iff_not_gt]
  rcases h : violationCmp a b with h1 | h1 | h1
  · exact Or.inl (by simp [h])
  · exact Or.inl (by simp [h])
  · refine Or.inr ?_
    have hs := lawCmp_violationCmp.swap a b
    rw [h] at hs
    rw [← hs]
    simp [Ordering.swap]

theorem violationLe_iff_tripleLE (a b : Violation) :
    violationLe a b = true ↔ tripleLE a b := by
  rw [violationLe_iff_not_gt]
  unfold violationCmp tripleLE
  rcases h1 : pathCmp a.location.file b.location.file with _ | _ | _ <;>
    rcases h2 : natCmp a.location.line b.location.line with _ | _ | _ <;>
    rcases h3 : natCmp a.location.column b.location.column with _ | _ | _ <;>
    simp_all [Ordering.then, natCmp_lt, natCmp_eq, natCmp_gt]
  all_goals omega

/-- C1: for every successful analysis run, the sequence of findings returned
by the analyzer is ordered ascending by the `(file, line, column)` triple:
adjacent findings compare lexicographically less-or-equal, independent of the
order in which the rules produced them. -/
theorem c1_findings_sorted (ruleOutputs : List (List Violation)) :
    (analyzeViolations ruleOutputs).Chain' tripleLE := by
  have hp := pairwise_stableSort violationLe violationLe_trans violationLe_total
    ruleOutputs.flatten
  have hp' : (analyzeViolations ruleOutputs).Pairwise tripleLE :=
    hp.imp fun h => (violationLe_iff_tripleLE _ _).mp h
  exact hp'.chain'

-- ────────────────────────────────────────────
-- Theorems: C8 severity override
-- ────────────────────────────────────────────

/-- C8: applying a severity override is a pure per-finding update — the
returned list has the same length and order, every returned violation agrees
with its input on every field except possibly the severity, and when the
configuration sets no severity for the rule the list is returned entirely
unchanged. -/
theorem c8_severity_override_frame (cfg : Config) (ruleName : Chars)
    (violations : List Violation) :
    (applySeverityOverride cfg ruleName violations).length = violations.length ∧
    (∀ i : Nat, ((applySeverityOverride cfg ruleName violations)[i]?).map violationFrame =
        (violations[i]?).map violationFrame) ∧
    (cfg.ruleSeverity ruleName = none →
      applySeverityOverride cfg ruleName violations = violations) := by
  unfold applySeverityOverride
  cases h : cfg.ruleSeverity ruleName with
  | none => exact ⟨rfl, fun i => rfl, fun _ => rfl⟩
  | some s =>
    refine ⟨by simp, ?_, ?_⟩
    · intro i
      rw [List.getElem?_map]
      cases violations[i]? with
      | none => rfl
      | some v => rfl
    · intro hn
      cases hn

/-- Closed instance of `c8_severity_override_frame`: an empty rule table sets
no severity, so the violation list comes back unchanged. -/
theorem c8_severity_override_frame_witness :
    applySeverityOverride ⟨[]⟩ (("no-unwrap-expect").data)
        [Violation.new ("AL001").data ("no-unwrap-expect").data .error
          (Location.new ("src/lib.rs").data 42 10) ("m").data] =
      [Violation.new ("AL001").data ("no-unwrap-expect").data .error
        (Location.new ("src/lib.rs").data 42 10) ("m").data] :=
  (c8_severity_override_frame ⟨[]⟩ (("no-unwrap-expect").data) _).2.2 rfl

-- ────────────────────────────────────────────
-- Theorems: C4 file exclusion
-- ────────────────────────────────────────────

/-- C4 counterexample: with the empty exclude pattern (a valid glob matching
only the empty path) and the path `src/lib.rs`, `should_exclude` returns
false, while the claim's condition holds (the pattern with `**` removed is
empty and an empty string occurs as a substring of every path).  The claim
omits the source's non-emptiness guard on the stripped pattern. -/
theorem c4_exclude_counterexample :
    ¬ (shouldExclude emptyOnlyGlobNew [[]] (("src/lib.rs").data) = true ↔
        specDualExclude emptyOnlyGlobNew [[]] (("src/lib.rs").data)) := by
  intro h
  have hspec : specDualExclude emptyOnlyGlobNew [[]] (("src/lib.rs").data) :=
    ⟨[], List.mem_singleton.mpr rfl, Or.inr (by decide)⟩
  exact absurd (h.mpr hspec) (by decide)

/-- C4 (amended): a path is excluded exactly when it matches at least one
pattern as a glob, OR at least one pattern whose form with `**` tokens removed
is NON-EMPTY occurs as a substring of the path string. -/
theorem c4_exclude_amended (globNew : Chars → Option (Chars → Bool))
    (patterns : List Chars) (pathStr : Chars) :
    shouldExclude globNew patterns pathStr = true ↔
      ∃ p ∈ patterns,
        (∃ m, globNew p = some m ∧ m pathStr = true) ∨
        (stripStars p ≠ [] ∧ containsSeq (stripStars p) pathStr = true) := by
  unfold shouldExclude
  rw [List.any_eq_true]
  refine exists_congr fun p => and_congr_right fun _ => ?_
  cases hg : globNew p with
  | none => simp [List.isEmpty_iff, and_comm]
  | some m => simp [List.isEmpty_iff, and_comm]

-- ────────────────────────────────────────────
-- Theorems: C10 allow-comment scan boundaries
-- ────────────────────────────────────────────

theorem checkLine_none (lines : List Chars) (ruleName : Chars) (k : Nat)
    (h : k = 0 ∨ lines.length < k) : checkLine lines ruleName k = none := by
  unfold checkLine
  rw [if_pos h]

/-- C10 counterexample: for a one-line content whose single line is an allow
directive, the reported line 2 lies past the end of the file, yet the scanner
still inspects line 1 (= L-1) and returns Allowed — not Denied as the claim
states for lines past the end. -/
theorem c10_allow_scan_counterexample :
    (rustLines contentPastEnd).length < 2 ∧
    checkAllowWithReason contentPastEnd 2 (("no-unwrap-expect").data) =
      .allowed none := by
  constructor
  · decide
  · decide

/-- C10 (amended): the scanner is total and considers only lines L-1 and L
that actually exist: when neither exists (e.g. L = 0, or L at least two past
the last line) no line is scanned and the result is Denied; for L = 1 only
line 1 is scanned; and for L = number-of-lines + 1 the last line (L-1) is
still scanned. -/
theorem c10_allow_scan_amended (content ruleName : Chars) (L : Nat) :
    ((L - 1 = 0 ∨ (rustLines content).length < L - 1) ∧
      (L = 0 ∨ (rustLines content).length < L) →
      checkAllowWithReason content L ruleName = .denied) ∧
    (checkAllowWithReason content 1 ruleName =
      (match checkLine (rustLines content) ruleName 1 with
       | some r => AllowCheck.allowed r
       | none => AllowCheck.denied)) ∧
    (L = (rustLines content).length + 1 →
      checkAllowWithReason content L ruleName =
        (match checkLine (rustLines content) ruleName ((rustLines content).length) with
         | some r => AllowCheck.allowed r
         | none => AllowCheck.denied)) := by
  refine ⟨?_, ?_, ?_⟩
  · rintro ⟨h1, h2⟩
    simp only [checkAllowWithReason]
    rw [checkLine_none _ _ _ h1, checkLine_none _ _ _ h2]
  · simp only [checkAllowWithReason, Nat.sub_self]
    rw [checkLine_none _ _ 0 (Or.inl rfl)]
  · intro hL
    subst hL
    simp only [checkAllowWithReason, Nat.add_sub_cancel]
    cases hc : checkLine (rustLines content) ruleName ((rustLines content).length) with
    | some r => rfl
    | none =>
      rw [checkLine_none _ _ _ (Or.inr (Nat.lt_succ_self _))]

/-- Closed instance of `c10_allow_scan_amended`: line 5 of a one-line file is
at least two past the last line, so the scan returns Denied. -/
theorem c10_allow_scan_amended_witness :
    checkAllowWithReason contentPastEnd 5 (("no-unwrap-expect").data) = .denied :=
  (c10_allow_scan_amended contentPastEnd (("no-unwrap-expect").data) 5).1
    ⟨Or.inr (by decide), Or.inr (by decide)⟩

-- ────────────────────────────────────────────
-- Theorems: C2 missing-reason meta-finding
-- ────────────────────────────────────────────

/-- C2: for the no-unwrap-expect rule with its default configuration (reason
required), whenever the allow scan of a `.unwrap()` call site finds a
directive covering the rule without a reason, the visitor emits exactly one
meta-finding — Warning severity, message "Allow directive for
'no-unwrap-expect' is missing required reason", with the add-reason
suggestion — and does not emit the underlying unwrap violation. -/
theorem c2_missing_reason_meta_finding (relativePath content : Chars) (line col : Nat)
    (receiverIsPartialCmp : Bool)
    (h : checkAllowWithReason content line (("no-unwrap-expect").data) = .allowed none) :
    visitExprMethodCallUnwrap NoUnwrapExpect.new relativePath content false false
        (("unwrap").data) line col receiverIsPartialCmp =
      [unwrapMetaViolation relativePath line col] ∧
    (unwrapMetaViolation relativePath line col).severity = .warning ∧
    (unwrapMetaViolation relativePath line col).message =
      ("Allow directive for ").data ++ apoS ++ ("no-unwrap-expect").data ++ apoS ++
        (" is missing required reason").data ∧
    (unwrapMetaViolation relativePath line col).suggestion =
      some (Suggestion.new
        ("Add reason=\"...\" to explain why this exception is necessary").data) := by
  refine ⟨?_, rfl, rfl, rfl⟩
  unfold visitExprMethodCallUnwrap
  simp [NoUnwrapExpect.new, NoUnwrapExpect.requiresAllowReason, h]

/-- Closed instance of `c2_missing_reason_meta_finding` on a file whose line 3
calls `.unwrap()` under a reason-less allow comment on line 2. -/
theorem c2_missing_reason_meta_finding_witness :
    checkAllowWithReason contentAllowNoReason 3 (("no-unwrap-expect").data) =
      .allowed none ∧
    visitExprMethodCallUnwrap NoUnwrapExpect.new ("test.rs").data contentAllowNoReason
        false false (("unwrap").data) 3 14 false =
      [unwrapMetaViolation ("test.rs").data 3 14] :=
  ⟨by decide, (c2_missing_reason_meta_finding ("test.rs").data contentAllowNoReason 3 14
    false (by decide)).1⟩

-- ────────────────────────────────────────────
-- Theorems: C9 glob boundary fallback
-- ────────────────────────────────────────────

theorem startsList_iff (p l : Chars) : startsList p l = true ↔ p <+: l := by
  induction p generalizing l with
  | nil => simp [startsList]
  | cons c cs ih =>
    cases l with
    | nil => simp [startsList]
    | cons d ds =>
      simp [startsList, ih, List.cons_prefix_cons]

/-- C9: for every glob pattern of the form `<prefix>/**` (non-empty prefix)
and any compiled matcher, `GlobPattern::matches` accepts every path that
continues the trailing-slash-trimmed prefix with `/` and at least one further
character, even when the compiled glob alone rejects it; the bare prefix path
itself is not matched by the boundary fallback, and a path continuing the
prefix without a `/` separator is not matched by it. -/
theorem c9_glob_boundary_fallback (compiled : Chars → Bool) (pre : Chars)
    (_hpre : pre ≠ []) :
    (∀ s : Chars, s ≠ [] →
      GlobPattern.matches ⟨pre ++ ("/**").data, compiled⟩
        (trimEndSlashes pre ++ '/' :: s) = true) ∧
    boundaryFallback (pre ++ ("/**").data) (trimEndSlashes pre) = false ∧
    (∀ (c : Char) (s : Chars), c ≠ '/' →
      boundaryFallback (pre ++ ("/**").data) (trimEndSlashes pre ++ c :: s) = false) := by
  have hfb : ∀ path, boundaryFallback (pre ++ ("/**").data) path =
      (startsList (trimEndSlashes pre) path &&
        (path[(trimEndSlashes pre).length]? == some '/')) := by
    intro path
    unfold boundaryFallback
    rw [dropSuf_append]
  refine ⟨?_, ?_, ?_⟩
  · intro s _
    unfold GlobPattern.matches
    have h1 : boundaryFallback (pre ++ ("/**").data)
        (trimEndSlashes pre ++ '/' :: s) = true := by
      rw [hfb]
      rw [startsList_self_append]
      rw [List.getElem?_append_right (Nat.le_refl _)]
      simp
    cases compiled (trimEndSlashes pre ++ '/' :: s) <;> simp [h1]
  · rw [hfb]
    have h2 : (trimEndSlashes pre)[(trimEndSlashes pre).length]? = none := by simp
    rw [h2]
    simp
  · intro c s hc
    rw [hfb]
    rw [List.getElem?_append_right (Nat.le_refl _)]
    simp [hc]

/-- Closed instance of `c9_glob_boundary_fallback` for the pattern
`src/domain/**` with a compiled matcher that never matches. -/
theorem c9_glob_boundary_fallback_witness :
    GlobPattern.matches ⟨("src/domain").data ++ ("/**").data, falseGlob⟩
        (trimEndSlashes ("src/domain").data ++ '/' :: ("a.rs").data) = true ∧
    boundaryFallback (("src/domain").data ++ ("/**").data)
        (trimEndSlashes ("src/domain").data) = false ∧
    boundaryFallback (("src/domain").data ++ ("/**").data)
        (trimEndSlashes ("src/domain").data ++ 'x' :: ("a.rs").data) = false :=
  ⟨((c9_glob_boundary_fallback falseGlob ("src/domain").data (by decide)).1
      ("a.rs").data (by decide)),
   (c9_glob_boundary_fallback falseGlob ("src/domain").data (by decide)).2.1,
   ((c9_glob_boundary_fallback falseGlob ("src/domain").data (by decide)).2.2
      'x' ("a.rs").data (by decide))⟩

-- ────────────────────────────────────────────
-- Theorems: C7 ArchConfig validation
-- ────────────────────────────────────────────

theorem depsEntryError_none_iff (layerNames : List Chars) (layer : Chars)
    (deps : List Chars) :
    depsEntryError layerNames layer deps = none ↔
      (layer ∈ layerNames ∧ (∀ d ∈ deps, d ∈ layerNames) ∧ layer ∉ deps) := by
  unfold depsEntryError
  by_cases h1 : layer ∈ layerNames
  · rw [if_neg (by simp [h1])]
    cases hf : deps.find? (fun d => !(layerNames.contains d)) with
    | some d =>
      have hd1 := List.find?_some hf
      have hd2 := List.mem_of_find?_eq_some hf
      simp only [Bool.not_eq_eq_eq_not, Bool.not_true] at hd1
      refine iff_of_false (by simp) ?_
      rintro ⟨-, hall, -⟩
      simp [hall d hd2] at hd1
    | none =>
      have hall : ∀ d ∈ deps, d ∈ layerNames := by
        intro d hd
        have := List.find?_eq_none.mp hf d hd
        simpa using this
      by_cases h2 : layer ∈ deps
      · rw [if_pos (by simpa using h2)]
        refine iff_of_false (by simp) ?_
        rintro ⟨-, -, hnot⟩
        exact hnot h2
      · rw [if_neg (by simpa using h2)]
        exact iff_of_true rfl ⟨h1, hall, h2⟩
  · rw [if_pos (by simpa using h1)]
    refine iff_of_false (by simp) ?_
    rintro ⟨hmem, -, -⟩
    exact h1 hmem

theorem checkDeps_none_iff (layerNames : List Chars)
    (entries : List (Chars × List Chars)) :
    checkDeps layerNames entries = none ↔
      ∀ p ∈ entries, depsEntryError layerNames p.1 p.2 = none := by
  induction entries with
  | nil => simp [checkDeps]
  | cons e rest ih =>
    obtain ⟨layer, deps⟩ := e
    unfold checkDeps
    cases he : depsEntryError layerNames layer deps with
    | some msg =>
      refine iff_of_false (by simp) ?_
      intro hall
      have := hall (layer, deps) (List.mem_cons_self _ _)
      rw [he] at this
      cases this
    | none =>
      rw [ih]
      simp [List.forall_mem_cons, he]

theorem checkConstraints_none_iff (layerNames : List Chars) (i : Nat)
    (cs : List Constraint) :
    checkConstraints layerNames i cs = none ↔
      ∀ c ∈ cs, ∀ l ∈ c.inLayers, l ∈ layerNames := by
  induction cs generalizing i with
  | nil => simp [checkConstraints]
  | cons c rest ih =>
    unfold checkConstraints
    cases hf : c.inLayers.find? (fun l => !(layerNames.contains l)) with
    | some l =>
      have h1 := List.find?_some hf
      have h2 := List.mem_of_find?_eq_some hf
      simp only [Bool.not_eq_eq_eq_not, Bool.not_true] at h1
      refine iff_of_false (by simp) ?_
      intro hall
      simp [hall c (List.mem_cons_self _ _) l h2] at h1
    | none =>
      have hall : ∀ l ∈ c.inLayers, l ∈ layerNames := by
        intro l hl
        have := List.find?_eq_none.mp hf l hl
        simpa using this
      rw [ih]
      constructor
      · intro h
        exact List.forall_mem_cons.mpr ⟨hall, h⟩
      · intro h
        exact fun c2 hc2 => h c2 (List.mem_cons_of_mem _ hc2)

theorem checkLayerEntries_none_iff (layers : List LayerDef)
    (dependencies : List (Chars × List Chars)) :
    checkLayerEntries layers dependencies = none ↔
      ∀ l ∈ layers, ∃ p ∈ dependencies, p.1 = l.name := by
  unfold checkLayerEntries
  cases hf : layers.find? (fun l => !(dependencies.any fun p => p.1 == l.name)) with
  | some l =>
    have h1 := List.find?_some hf
    have h2 := List.mem_of_find?_eq_some hf
    simp only [Bool.not_eq_eq_eq_not, Bool.not_true, List.any_eq_false] at h1
    refine iff_of_false (by simp) ?_
    intro hall
    rcases hall l h2 with ⟨p, hp, hpe⟩
    exact absurd (by simpa using hpe) (h1 p hp)
  | none =>
    refine iff_of_true rfl ?_
    intro l hl
    have := List.find?_eq_none.mp hf l hl
    simp only [Bool.not_eq_eq_eq_not, Bool.not_true, Bool.not_eq_false] at this
    rcases List.any_eq_true.mp this with ⟨p, hp, hpe⟩
    exact ⟨p, hp, by simpa using hpe⟩

/-- C7 (amended): layer-engine configuration validation accepts exactly when
every layer referenced in the dependencies map and in constraints' in-layers
lists is defined, every defined layer has a dependencies entry, and no layer's
allow-list contains the layer itself.  (When invalid, the source reports only
the FIRST problem found as a single validation error — see the
counterexample.) -/
theorem c7_validate_amended (cfg : ArchConfig) :
    cfg.validate = .ok () ↔ archValid cfg := by
  unfold ArchConfig.validate archValid
  cases hd : checkDeps (cfg.layers.map fun l => l.name) cfg.dependencies with
  | some e =>
    refine iff_of_false (by simp [hd]) ?_
    rintro ⟨hA, -, -⟩
    have : checkDeps (cfg.layers.map fun l => l.name) cfg.dependencies = none :=
      (checkDeps_none_iff _ _).mpr fun p hp =>
        (depsEntryError_none_iff _ _ _).mpr (hA p hp)
    rw [hd] at this
    cases this
  | none =>
    cases hc : checkConstraints (cfg.layers.map fun l => l.name) 0 cfg.constraints with
    | some e =>
      refine iff_of_false (by simp [hd, hc]) ?_
      rintro ⟨-, hB, -⟩
      have : checkConstraints (cfg.layers.map fun l => l.name) 0 cfg.constraints = none :=
        (checkConstraints_none_iff _ _ _).mpr hB
      rw [hc] at this
      cases this
    | none =>
      cases hl : checkLayerEntries cfg.layers cfg.dependencies with
      | some e =>
        refine iff_of_false (by simp [hd, hc, hl]) ?_
        rintro ⟨-, -, hC⟩
        have : checkLayerEntries cfg.layers cfg.dependencies = none :=
          (checkLayerEntries_none_iff _ _).mpr hC
        rw [hl] at this
        cases this
      | none =>
        refine iff_of_true (by simp [hd, hc, hl]) ?_
        refine ⟨?_, (checkConstraints_none_iff _ _ _).mp hc,
          (checkLayerEntries_none_iff _ _).mp hl⟩
        intro p hp
        exact (depsEntryError_none_iff _ _ _).mp
          ((checkDeps_none_iff _ _).mp hd p hp)

/-- C7 counterexample: `archCfgBad` has two independent problems (unknown dep
`nonexistent`, unknown constraint layer `ghost`), but `validate` reports a
single error naming only the first one; the `ghost` problem is absent from the
returned error, so the problems are not collected. -/
theorem c7_validate_counterexample :
    ArchConfig.validate archCfgBad =
      .error (("dependencies.").data ++ ("domain").data ++ (": unknown dep ").data ++
        apoS ++ ("nonexistent").data ++ apoS) ∧
    containsSeq ("ghost").data
      (("dependencies.").data ++ ("domain").data ++ (": unknown dep ").data ++
        apoS ++ ("nonexistent").data ++ apoS) = false ∧
    (∃ c ∈ archCfgBad.constraints, ∃ l ∈ c.inLayers,
      l ∉ archCfgBad.layers.map fun ld => ld.name) := by
  refine ⟨by rfl, by decide, ?_⟩
  refine ⟨_, List.mem_singleton.mpr rfl, ("ghost").data, ?_, by decide⟩
  decide

-- ────────────────────────────────────────────
-- Theorems: C5 use-pattern matching
-- ────────────────────────────────────────────

theorem matchParts_sound : ∀ (pat path : List Chars),
    matchParts path pat = true → SegMatch path pat := by
  intro pat
  induction pat with
  | nil =>
    intro path h
    simp [matchParts] at h
    subst h
    exact SegMatch.nil
  | cons p rest ih =>
    by_cases hd : p = dstarSeg
    · subst hd
      intro path
      induction path with
      | nil =>
        intro h
        simp [matchParts] at h
        exact SegMatch.anyZero (ih _ h)
      | cons s t ihp =>
        intro h
        have h' : matchParts (s :: t) rest = true ∨ matchParts t (dstarSeg :: rest) = true := by
          simpa [matchParts] using h
        rcases h' with h1 | h1
        · exact SegMatch.anyZero (ih _ h1)
        · exact SegMatch.anyMore s (ihp h1)
    · by_cases hs : p = starSeg
      · subst hs
        intro path h
        cases path with
        | nil => simp [matchParts, show starSeg ≠ dstarSeg by decide] at h
        | cons s t =>
          have h' : matchParts t rest = true := by
            simpa [matchParts, show starSeg ≠ dstarSeg by decide] using h
          exact SegMatch.one s (ih t h')
      · intro path h
        cases path with
        | nil => simp [matchParts, hd, hs] at h
        | cons s t =>
          have h' : s = p ∧ matchParts t rest = true := by
            simpa [matchParts, hd, hs] using h
          rcases h' with ⟨hse, hm⟩
          subst hse
          exact SegMatch.lit s hs hd (ih t hm)

theorem matchParts_complete : ∀ {path pat : List Chars},
    SegMatch path pat → matchParts path pat = true := by
  intro path pat h
  induction h with
  | nil => simp [matchParts]
  | lit s h1 h2 _ ih => simp [matchParts, h1, h2, ih]
  | one s _ ih => simp [matchParts, show starSeg ≠ dstarSeg by decide, ih]
  | anyZero _ ih =>
    unfold matchParts
    simp [ih]
  | anyMore s _ ih =>
    unfold matchParts
    simp [ih]

/-- C5: the use-pattern matcher succeeds exactly when the `::`-separated
segments of the path can be aligned against the `::`-separated segments of
the pattern so that a literal segment matches only an identical path segment,
`*` consumes exactly one path segment, and `**` consumes zero or more path
segments. -/
theorem c5_use_pattern_semantics (path pat : Chars) :
    pathMatches path pat = true ↔ SegMatch (splitSeg path) (splitSeg pat) :=
  ⟨fun h => matchParts_sound _ _ h, fun h => matchParts_complete h⟩

-- ────────────────────────────────────────────
-- Theorems: C3 layer resolution
-- ────────────────────────────────────────────

theorem findLayer_sound (m : List (Chars × Chars)) (q : Chars) (L : Chars)
    (h : findLayer m q = some L) :
    ∃ e ∈ m, e.2 = L ∧ qualMatches e.1 q = true := by
  induction m with
  | nil => cases h
  | cons x rest ih =>
    obtain ⟨p, n⟩ := x
    simp only [findLayer] at h
    split at h
    case isTrue hq =>
      exact ⟨(p, n), List.mem_cons_self _ _, Option.some.inj h, hq⟩
    case isFalse hq =>
      obtain ⟨e, he, h1, h2⟩ := ih h
      exact ⟨e, List.mem_cons_of_mem _ he, h1, h2⟩

theorem findLayer_isSome (m : List (Chars × Chars)) (q : Chars) (e : Chars × Chars)
    (he : e ∈ m) (hq : qualMatches e.1 q = true) :
    ∃ L, findLayer m q = some L := by
  induction m with
  | nil => cases he
  | cons x rest ih =>
    obtain ⟨p, n⟩ := x
    simp only [findLayer]
    split
    case isTrue => exact ⟨n, rfl⟩
    case isFalse hq2 =>
      rcases List.mem_cons.mp he with rfl | hm
      · exact absurd hq hq2
      · exact ih hm

theorem findLayer_max (m : List (Chars × Chars)) (q : Chars) (L : Chars)
    (hpw : m.Pairwise (fun a b => b.1.length ≤ a.1.length))
    (h : findLayer m q = some L) :
    ∃ e ∈ m, e.2 = L ∧ qualMatches e.1 q = true ∧
      ∀ e2 ∈ m, qualMatches e2.1 q = true → e2.1.length ≤ e.1.length := by
  induction m with
  | nil => cases h
  | cons x rest ih =>
    obtain ⟨p, n⟩ := x
    simp only [findLayer] at h
    split at h
    case isTrue hq =>
      refine ⟨(p, n), List.mem_cons_self _ _, Option.some.inj h, hq, ?_⟩
      intro e2 he2 _
      rcases List.mem_cons.mp he2 with rfl | hm
      · exact Nat.le_refl _
      · exact List.rel_of_pairwise_cons hpw hm
    case isFalse hq =>
      obtain ⟨e, he, h1, h2, h3⟩ := ih hpw.tail h
      refine ⟨e, List.mem_cons_of_mem _ he, h1, h2, ?_⟩
      intro e2 he2 hq2
      rcases List.mem_cons.mp he2 with rfl | hm
      · exact absurd hq2 hq
      · exact h3 e2 hm hq2

theorem findLayer_unique (m : List (Chars × Chars)) (q : Chars) (P L : Chars)
    (hpw : m.Pairwise (fun a b => b.1.length ≤ a.1.length))
    (hmem : (P, L) ∈ m) (hq : qualMatches P q = true)
    (huniq : ∀ e ∈ m, qualMatches e.1 q = true → e = (P, L) ∨ e.1.length < P.length) :
    findLayer m q = some L := by
  induction m with
  | nil => cases hmem
  | cons x rest ih =>
    obtain ⟨p, n⟩ := x
    simp only [findLayer]
    split
    case isTrue hq2 =>
      rcases huniq (p, n) (List.mem_cons_self _ _) hq2 with he | hlt
      · rw [Prod.mk.injEq] at he
        rw [he.2]
      · have hlt2 : p.length < P.length := hlt
        rcases List.mem_cons.mp hmem with hPh | hPm
        · rw [Prod.mk.injEq] at hPh
          rw [hPh.1] at hlt2
          omega
        · have hle : P.length ≤ p.length := List.rel_of_pairwise_cons hpw hPm
          omega
    case isFalse hq2 =>
      rcases List.mem_cons.mp hmem with hPh | hPm
      · rw [Prod.mk.injEq] at hPh
        rw [← hPh.1] at hq2
        exact absurd hq hq2
      · exact ih hpw.tail hPm
          (fun e he hqe => huniq e (List.mem_cons_of_mem _ he) hqe)

theorem pairwise_layerResolverMap (layers : List LayerDef) :
    (layerResolverMap layers).Pairwise (fun a b => b.1.length ≤ a.1.length) := by
  have h := pairwise_stableSort prefLenDescLe
    (fun a b c h1 h2 =>
      decide_eq_true
        (Nat.le_trans (of_decide_eq_true h2) (of_decide_eq_true h1)))
    (fun a b => by
      simp only [prefLenDescLe, decide_eq_true_eq]
      exact Nat.le_total _ _)
    (layerEntries layers)
  exact h.imp fun hx => by simpa [prefLenDescLe] using hx

/-- C3 (amended): resolution is longest-matching-prefix: (i) a successful
resolution goes through a registered `(prefix, layer)` entry whose prefix
matches the qualified name (exactly or at a `.` boundary) and has maximal
length among all matching entries; (ii) whenever some registered prefix
matches the name — in particular P2 when the name starts with P2 — resolution
succeeds; (iii) a sufficient (not necessary) condition: whenever every other
matching registered entry is strictly shorter than a matching prefix P, the
name resolves to the layer registered for P.  Hence a strict prefix P1 of P2
never shadows P2, but a strictly longer matching third prefix resolves in its
own layer's favour, so the name need not resolve to P2's layer (see the
counterexample); and the condition in (iii) is not necessary, since a layer
registering both a prefix and a longer sub-prefix of it resolves to that same
layer with a longer matching entry present. -/
theorem c3_longest_prefix_amended (layers : List LayerDef) (q : Chars) :
    (∀ L, resolveLayer layers q = some L →
      ∃ e ∈ layerEntries layers, e.2 = L ∧ qualMatches e.1 q = true ∧
        ∀ e2 ∈ layerEntries layers, qualMatches e2.1 q = true →
          e2.1.length ≤ e.1.length) ∧
    (∀ e ∈ layerEntries layers, qualMatches e.1 q = true →
      ∃ L, resolveLayer layers q = some L) ∧
    (∀ P L, (P, L) ∈ layerEntries layers → qualMatches P q = true →
      (∀ e ∈ layerEntries layers, qualMatches e.1 q = true →
        e = (P, L) ∨ e.1.length < P.length) →
      resolveLayer layers q = some L) := by
  have hmm : ∀ e : Chars × Chars,
      e ∈ layerResolverMap layers ↔ e ∈ layerEntries layers :=
    fun e => mem_stableSort prefLenDescLe (layerEntries layers) e
  refine ⟨?_, ?_, ?_⟩
  · intro L h
    obtain ⟨e, he, h1, h2, h3⟩ := findLayer_max _ q L (pairwise_layerResolverMap layers) h
    exact ⟨e, (hmm e).mp he, h1, h2,
      fun e2 he2 hq2 => h3 e2 ((hmm e2).mpr he2) hq2⟩
  · intro e he hq
    exact findLayer_isSome _ q e ((hmm e).mpr he) hq
  · intro P L hm hq hu
    exact findLayer_unique _ q P L (pairwise_layerResolverMap layers)
      ((hmm (P, L)).mpr hm) hq
      (fun e he hqe => hu e ((hmm e).mp he) hqe)

/-- C3 counterexample: with registered prefixes `com` (layer `la`), `com.a`
(layer `lb`) and `com.a.b` (layer `lc`), the prefix `com` is a strict prefix
of `com.a` and the qualified name `com.a.b` starts with `com.a`, yet it
resolves to `lc` (the longer third prefix), not to the layer registered for
`com.a` as the claim requires. -/
theorem c3_longest_prefix_counterexample :
    (("com").data, ("la").data) ∈ layerEntries layersC3 ∧
    (("com.a").data, ("lb").data) ∈ layerEntries layersC3 ∧
    (("com").data <+: ("com.a").data) ∧ ("com").data ≠ ("com.a").data ∧
    startsList ("com.a").data ("com.a.b").data = true ∧
    qualMatches ("com.a").data ("com.a.b").data = true ∧
    resolveLayer layersC3 ("com.a.b").data = some ("lc").data ∧
    ("lc").data ≠ ("lb").data := by
  decide

/-- Closed instance of `c3_longest_prefix_amended`: with the three-layer
fixture, `com.a.b` is the unique longest matching prefix, so part (iii) pins
the resolution to its layer. -/
theorem c3_longest_prefix_amended_witness :
    resolveLayer layersC3 ("com.a.b").data = some ("lc").data :=
  (c3_longest_prefix_amended layersC3 ("com.a.b").data).2.2
    ("com.a.b").data ("lc").data (by decide) (by decide) (by decide)

-- ────────────────────────────────────────────
-- Theorems: C6 deny-scope-dep
-- ────────────────────────────────────────────

theorem dropPre_append (p t : Chars) : dropPre p (p ++ t) = some t := by
  unfold dropPre
  rw [startsList_self_append]
  simp

theorem splitSeg_ne_nil (l : Chars) : splitSeg l ≠ [] := by
  induction l using splitSeg.induct with
  | case1 => simp [splitSeg]
  | case2 rest ih => simp [splitSeg]
  | case3 c rest hne s ss hs ih =>
    unfold splitSeg
    simp [hs]
  | case4 c rest hne hs ih =>
    unfold splitSeg
    simp [hs]

theorem resolveTargetScopes_crate (cfg : DeclarativeConfig) (tail : Chars) :
    resolveTargetScopes cfg (("crate::").data ++ tail) =
      scopesForPath cfg (candidateFilePath tail) := by
  unfold resolveTargetScopes candidateFilePath
  rw [dropPre_append]
  simp [splitSeg_ne_nil]

/-- C6: for a file in scope F (= `dep.fromScope`) with a configured deny-list
`dep`, and an expanded `crate::`-import, the deny rule contributes a finding
exactly when one of the scopes resolved for the candidate file path
`src/<tail segments joined by "/">.rs` is on the deny-list (so an import
resolving only into F itself yields no finding when F is not denied); every
finding the rule contributes appears among the violations the visitor emits
for that import. -/
theorem c6_scope_dep_exact (cfg : DeclarativeConfig) (dep : ScopeDep)
    (relativePath tail : Chars) (line col : Nat)
    (hdep : dep ∈ cfg.scopeDeps)
    (hfrom : dep.fromScope ∈ scopesForPath cfg relativePath) :
    (scopeDepFindingsFor cfg dep relativePath (("crate::").data ++ tail) line col ≠ [] ↔
      ∃ t ∈ scopesForPath cfg (candidateFilePath tail), dep.isDenied t = true) ∧
    (∀ v ∈ scopeDepFindingsFor cfg dep relativePath (("crate::").data ++ tail) line col,
      v ∈ scopeDepViolationsForUse cfg relativePath (("crate::").data ++ tail) line col) := by
  constructor
  · unfold scopeDepFindingsFor
    rw [resolveTargetScopes_crate]
    constructor
    · intro hne
      rw [Ne, List.filterMap_eq_nil_iff] at hne
      push_neg at hne
      obtain ⟨t, ht, hsome⟩ := hne
      refine ⟨t, ht, ?_⟩
      by_contra hden
      rw [if_neg (by simpa using hden)] at hsome
      exact hsome rfl
    · rintro ⟨t, ht, hden⟩ hnil
      rw [List.filterMap_eq_nil_iff] at hnil
      have := hnil t ht
      rw [if_pos hden] at this
      cases this
  · intro v hv
    unfold scopeDepViolationsForUse
    rw [List.mem_flatMap]
    refine ⟨dep, ?_, hv⟩
    rw [List.mem_filter]
    exact ⟨hdep, by simpa using hfrom⟩

/-- Closed instance of `c6_scope_dep_exact`: in the domain/infra fixture, the
file `src/domain/service.rs` importing `crate::infra::db::Pool` makes the
deny rule fire (the candidate `src/infra/db/Pool.rs` resolves into the denied
`infra` scope). -/
theorem c6_scope_dep_exact_witness :
    scopeDepFindingsFor declCfgC6 depDomainInfra ("src/domain/service.rs").data
      (("crate::").data ++ ("infra::db::Pool").data) 1 4 ≠ [] :=
  ((c6_scope_dep_exact declCfgC6 depDomainInfra ("src/domain/service.rs").data
      ("infra::db::Pool").data 1 4 (List.mem_singleton.mpr rfl) (by decide)).1).mpr
    ⟨("infra").data, by decide, by decide⟩
